import Mathlib

/-!
Verification of the statement-to-OFX conversion pipeline.

The development shallowly embeds the pipeline's pure core:
* the line-aligned chunker `createChunks`,
* the per-record validator/normalizer `normalize`,
* the extraction client's response handling `processResponseText` and its
  retry/backoff loop `extractTransactionsFromChunk`,
* the orchestrator `handleFileSelect` (OFX fast path, chunk loop, empty-result check),
* the OFX serializer `createOfxContent`.

JavaScript strings are modeled as `List Char` (`Str`) where induction over
characters is needed, and as Lean `String` for record fields.  Ambient effects
are made explicit: the current date is a parameter `dateCreated`/`today`, the
random backoff jitter is a parameter `jitter`, and the external extraction
capability is a parameter `call`/`extract`.
-/

attribute [local semireducible] Rat.mul Rat.add

abbrev Str := List Char

/-- The whitespace characters relevant to `String.prototype.trim` for the
inputs considered here (space, tab, line feed, carriage return, vertical tab,
form feed). -/
def isJsSpace (c : Char) : Bool :=
  c = ' ' || c = '\t' || c = '\n' || c = '\r' || c = '\x0b' || c = '\x0c'

/-- `currentChunk.trim().length > 0`: the buffer holds some non-whitespace
character. -/
def hasContent (s : Str) : Bool := s.any (fun c => !isJsSpace c)

/-- `s.trim()`: strip leading and trailing whitespace. -/
def jsTrim (s : Str) : Str :=
  ((s.dropWhile isJsSpace).reverse.dropWhile isJsSpace).reverse

/-- `text.split('\n')`: split a string at every newline character.  Splitting
the empty string yields one empty field, as in JavaScript. -/
def splitOnNl : Str → List Str
  | [] => [[]]
  | c :: cs =>
    match splitOnNl cs with
    | [] => [[c]]
    | r :: rs => if c = '\n' then [] :: r :: rs else (c :: r) :: rs

/-- The accumulation loop of `createChunks`: greedily pack whole lines
(each re-suffixed with `'\n'`) into a buffer; when appending the next line
would exceed `chunkSize`, flush the buffer (dropped when whitespace-only)
and start a fresh buffer with that line.  The trailing buffer is flushed the
same way. -/
def chunksLoop (chunkSize : Nat) : List Str → Str → List Str
  | [], current => if hasContent current then [current] else []
  | line :: rest, current =>
    if chunkSize < current.length + line.length + 1 then
      (if hasContent current then [current] else []) ++
        chunksLoop chunkSize rest (line ++ ['\n'])
    else
      chunksLoop chunkSize rest (current ++ (line ++ ['\n']))

/-- `createChunks(text, chunkSize)`: texts no longer than `chunkSize` pass
through as a singleton; otherwise the text is split at newlines and packed by
`chunksLoop` starting from an empty buffer. -/
def createChunks (text : Str) (chunkSize : Nat) : List Str :=
  if text.length ≤ chunkSize then [text]
  else chunksLoop chunkSize (splitOnNl text) []

/-- Render a list of lines the way the chunker's buffer accumulates them:
each line followed by one newline. -/
def renderLines (ls : List Str) : Str := (ls.map (fun l => l ++ ['\n'])).flatten

/-- The canonical transaction record (`types.ts`). -/
structure Transaction where
  date : String
  description : String
  amount : Rat
deriving DecidableEq

/-- JavaScript values as produced by `JSON.parse`. -/
inductive Jsval where
  | null
  | boolean (b : Bool)
  | num (x : Rat)
  | str (s : String)
  | arr (elems : List Jsval)
  | obj (fields : List (String × Jsval))

/-- Property access `j.k` on a parsed value: `none` models `undefined`. -/
def Jsval.getField : Jsval → String → Option Jsval
  | .obj fields, k => fields.lookup k
  | _, _ => none

/-- A loosely-typed record as delivered by the extraction capability.
`date` and `description` are modeled at the schema-mandated type (string),
with `none` for an absent (`undefined`) field; the `amount` field is kept as
an arbitrary present JSON value, because the code's
`tx.amount === undefined` guard observes nothing beyond presence and so lets
`null` and other non-numbers through. -/
structure RawRecord where
  date : Option String
  description : Option String
  amount : Option Jsval

/-- A record as it leaves the validation step.  The source annotates these
as `Transaction`, but the `=== undefined` amount guard admits any present
JSON value, so the surviving amount is an arbitrary `Jsval`, not necessarily
a number. -/
structure LooseTransaction where
  date : String
  description : String
  amount : Jsval

/-- Two-digit zero-padded decimal rendering (`padStart(2, '0')` on values
below 100). -/
def pad2 (n : Nat) : String :=
  String.mk [Nat.digitChar (n / 10 % 10), Nat.digitChar (n % 10)]

/-- Four-digit zero-padded decimal rendering of a year below 10000, as
produced by `Date.prototype.toISOString`. -/
def pad4 (n : Nat) : String :=
  String.mk [Nat.digitChar (n / 1000 % 10), Nat.digitChar (n / 100 % 10),
    Nat.digitChar (n / 10 % 10), Nat.digitChar (n % 10)]

/-- Proleptic-Gregorian leap year, on astronomical (signed) year numbers as
used by the JavaScript `Date`. -/
def isLeapYear (y : Int) : Bool :=
  y % 4 = 0 && (y % 100 ≠ 0 || y % 400 = 0)

def daysInMonth (y : Int) (m : Nat) : Nat :=
  if m = 2 then (if isLeapYear y then 29 else 28)
  else if m = 4 || m = 6 || m = 9 || m = 11 then 30 else 31

def digitVal (c : Char) : Nat := c.toNat - '0'.toNat

/-- Decimal digits of `n`, most significant first (empty for 0). -/
def natToDigits : Nat → List Char
  | 0 => []
  | n + 1 => natToDigits ((n + 1) / 10) ++ [Nat.digitChar ((n + 1) % 10)]
decreasing_by exact Nat.div_lt_self (Nat.succ_pos n) (by norm_num)

/-- Decimal rendering of a natural number, as JavaScript string interpolation
renders the numeric index in a template literal. -/
def natToString (n : Nat) : String :=
  if n = 0 then "0" else String.mk (natToDigits n)

/-- Read exactly `k` ASCII digits into an accumulator. -/
def readDigitsAux : Nat → Nat → List Char → Option (Nat × List Char)
  | 0, acc, cs => some (acc, cs)
  | k + 1, acc, c :: cs =>
    if c.isDigit then readDigitsAux k (acc * 10 + digitVal c) cs else none
  | _ + 1, _, [] => none

/-- Read exactly `k` ASCII digits, returning their value and the rest. -/
def readDigits (k : Nat) (cs : List Char) : Option (Nat × List Char) :=
  readDigitsAux k 0 cs

/-- The year production of the ECMAScript date-time string format: four
digits, or an expanded six-digit year with a mandatory sign (the language
spec excludes `-000000`). -/
def parseIsoYear : List Char → Option (Int × List Char)
  | '+' :: cs => (readDigits 6 cs).map (fun p => ((p.1 : Int), p.2))
  | '-' :: cs =>
    match readDigits 6 cs with
    | some (y, rest) => if y = 0 then none else some (-(y : Int), rest)
    | none => none
  | cs => (readDigits 4 cs).map (fun p => ((p.1 : Int), p.2))

/-- The optional `-MM` and `-MM-DD` productions; absent components default
to month 01 and day 01. -/
def parseIsoMonthDay : List Char → Option (Nat × Nat × List Char)
  | '-' :: cs =>
    match readDigits 2 cs with
    | some (mo, '-' :: rest) =>
      match readDigits 2 rest with
      | some (d, rest') => some (mo, d, rest')
      | none => none
    | some (mo, rest) => some (mo, 1, rest)
    | none => none
  | cs => some (1, 1, cs)

/-- The optional `:ss` and `.sss` productions of the time part. -/
def parseIsoSecondsMs : List Char → Option (Nat × Nat × List Char)
  | ':' :: cs =>
    match readDigits 2 cs with
    | some (ss, '.' :: rest) =>
      match readDigits 3 rest with
      | some (ms, rest') => some (ss, ms, rest')
      | none => none
    | some (ss, rest) => some (ss, 0, rest)
    | none => none
  | cs => some (0, 0, cs)

/-- The time-zone offset closing a date-time: nothing (the host zone, which
this model takes to be UTC), `Z`, or `±HH:mm`; the result is in minutes east
of UTC and the whole input must be consumed. -/
def parseIsoOffset : List Char → Option Int
  | [] => some 0
  | ['Z'] => some 0
  | '+' :: cs =>
    match readDigits 2 cs with
    | some (oh, ':' :: rest) =>
      match readDigits 2 rest with
      | some (om, []) =>
        if oh ≤ 23 && om ≤ 59 then some ((oh * 60 + om : Nat) : Int) else none
      | _ => none
    | _ => none
  | '-' :: cs =>
    match readDigits 2 cs with
    | some (oh, ':' :: rest) =>
      match readDigits 2 rest with
      | some (om, []) =>
        if oh ≤ 23 && om ≤ 59 then some (-((oh * 60 + om : Nat) : Int)) else none
      | _ => none
    | _ => none
  | _ => none

/-- The `HH:mm[:ss[.sss]][offset]` time production with the component bounds
of the language spec (hour 24 only at exactly 24:00:00.000); yields hours,
minutes, seconds, milliseconds and the offset in minutes. -/
def parseIsoTime (cs : List Char) : Option (Nat × Nat × Nat × Nat × Int) :=
  match readDigits 2 cs with
  | some (hh, ':' :: rest) =>
    match readDigits 2 rest with
    | some (mm, rest') =>
      match parseIsoSecondsMs rest' with
      | some (ss, ms, rest2) =>
        match parseIsoOffset rest2 with
        | some off =>
          if (hh ≤ 23 || (hh = 24 && mm = 0 && ss = 0 && ms = 0)) && mm ≤ 59 && ss ≤ 59 then
            some (hh, mm, ss, ms, off)
          else none
        | none => none
      | none => none
    | none => none
  | _ => none

def validYMD (y : Int) (mo d : Nat) : Bool :=
  1 ≤ mo && mo ≤ 12 && 1 ≤ d && d ≤ daysInMonth y mo

/-- The calendar date one day later (month and year carry). -/
def nextDay (y : Int) (mo d : Nat) : Int × Nat × Nat :=
  if d < daysInMonth y mo then (y, mo, d + 1)
  else if mo < 12 then (y, mo + 1, 1)
  else (y + 1, 1, 1)

/-- The calendar date one day earlier (month and year borrow). -/
def prevDay (y : Int) (mo d : Nat) : Int × Nat × Nat :=
  if 1 < d then (y, mo, d - 1)
  else if 1 < mo then (y, mo - 1, daysInMonth y (mo - 1))
  else (y - 1, 12, 31)

/-- Shift a calendar date by `k` days for the `k ∈ {-1, 0, 1}` produced by
`utcDayShift`. -/
def shiftDate (y : Int) (mo d : Nat) (k : Int) : Int × Nat × Nat :=
  if k < 0 then prevDay y mo d
  else if 0 < k then nextDay y mo d
  else (y, mo, d)

/-- Days since the Unix epoch of a proleptic-Gregorian calendar date (the
standard era-based days-from-civil computation). -/
def daysFromCivil (y : Int) (mo d : Nat) : Int :=
  let yp : Int := if mo ≤ 2 then y - 1 else y
  let era : Int := Int.fdiv yp 400
  let yoe : Int := yp - era * 400
  let doy : Nat := (153 * ((mo + 9) % 12) + 2) / 5 + d - 1
  let doe : Int := yoe * 365 + Int.fdiv yoe 4 - Int.fdiv yoe 100 + (doy : Int)
  era * 146097 + doe - 719468

/-- The ECMAScript time value (milliseconds since the epoch) of a parsed
date-time. -/
def timeValueMs (y : Int) (mo d hh mm ss ms : Nat) (off : Int) : Int :=
  daysFromCivil y mo d * 86400000
    + ((hh * 3600000 + mm * 60000 + ss * 1000 + ms : Nat) : Int) - off * 60000

/-- Time values are limited to 8.64e15 ms on either side of the epoch;
beyond that the constructed `Date` is invalid. -/
def inTimeRange (tv : Int) : Bool :=
  -8640000000000000 ≤ tv && tv ≤ 8640000000000000

/-- How many whole days the UTC reading of a local `hh:mm:ss.ms` at offset
`off` minutes east shifts the calendar date; always -1, 0 or 1 under the
component bounds. -/
def utcDayShift (hh mm ss ms : Nat) (off : Int) : Int :=
  Int.fdiv (((hh * 3600000 + mm * 60000 + ss * 1000 + ms : Nat) : Int) - off * 60000) 86400000

/-- Models `new Date(s)` followed by the `isNaN(date.getTime())` validity
check, returning the UTC calendar date that `toISOString` renders, for the
ECMAScript Date Time String Format (the only input format the language
standard defines): `YYYY`, `YYYY-MM` or `YYYY-MM-DD` with a four-digit or
expanded signed six-digit year, optionally followed by `THH:mm[:ss[.sss]]`
and an offset `Z` or `±HH:mm`.  Components are range-checked, including real
month lengths and the ±8.64e15 ms time-value clamp, and the hour 24:00 or a
time-zone offset rolls the UTC date by one day.  Two aspects of the host
environment are fixed by the model: the host time zone is taken to be UTC
(this affects only date-times carrying no offset, which the runtime reads as
local time), and engines' implementation-specific fallback formats beyond
the standard grammar (such as `March 5, 2024`) are modeled as invalid. -/
def jsParseDate (s : String) : Option (Int × Nat × Nat) :=
  match parseIsoYear s.toList with
  | none => none
  | some (y, rest) =>
    match parseIsoMonthDay rest with
    | none => none
    | some (mo, d, rest') =>
      if validYMD y mo d then
        match rest' with
        | [] =>
          if inTimeRange (timeValueMs y mo d 0 0 0 0 0) then some (y, mo, d) else none
        | 'T' :: timeCs =>
          match parseIsoTime timeCs with
          | none => none
          | some (hh, mm, ss, ms, off) =>
            if inTimeRange (timeValueMs y mo d hh mm ss ms off) then
              some (shiftDate y mo d (utcDayShift hh mm ss ms off))
            else none
        | _ => none
      else none

/-- Canonical 8-digit `YYYYMMDD` rendering of a calendar date with a
four-digit year. -/
def toYYYYMMDD (y m d : Nat) : String := pad4 y ++ pad2 m ++ pad2 d

/-- Six-digit zero-padded decimal rendering of an expanded ISO year. -/
def pad6 (n : Nat) : String :=
  String.mk [Nat.digitChar (n / 100000 % 10), Nat.digitChar (n / 10000 % 10),
    Nat.digitChar (n / 1000 % 10), Nat.digitChar (n / 100 % 10),
    Nat.digitChar (n / 10 % 10), Nat.digitChar (n % 10)]

/-- `date.toISOString().slice(0, 10)` with the hyphens removed, as the code
computes the stored date string.  For years 0..9999 the ISO rendering is
`YYYY-MM-DD`, so this is the canonical 8-digit `YYYYMMDD`.  For expanded
years the rendering starts `+YYYYYY-MM` or `-YYYYYY-MM`: the ten-character
slice cuts the day off and the global hyphen replacement strips a negative
year's sign, leaving a non-canonical 9- or 8-character sign-year-month
string. -/
def jsDateNormalize (y : Int) (mo d : Nat) : String :=
  if 0 ≤ y && y ≤ 9999 then toYYYYMMDD y.toNat mo d
  else if 9999 < y then "+" ++ pad6 y.toNat ++ pad2 mo
  else pad6 (-y).toNat ++ pad2 mo

/-- JavaScript falsiness of an optional string: absent (`undefined`/`null`)
or empty. -/
def jsFalsyStr (o : Option String) : Bool := o.getD "" = ""

/-- The per-record arrow of the `map`/`filter` validation in
`extractTransactionsFromChunk`: reject the record when `date` or
`description` is falsy or `amount === undefined`, or when the date is not
accepted by the runtime's date parsing; otherwise store the normalized date
rendering and keep `description` and the (arbitrary JSON) `amount`
unchanged. -/
def normalizeRecord (tx : RawRecord) : Option LooseTransaction :=
  if jsFalsyStr tx.date || jsFalsyStr tx.description || tx.amount.isNone then none
  else
    match jsParseDate (tx.date.getD "") with
    | none => none
    | some (y, mo, d) =>
      some ⟨jsDateNormalize y mo d, tx.description.getD "", tx.amount.getD Jsval.null⟩

/-- `x.toFixed(2)` for the exactly-representable amounts modeled by `Rat`:
sign, then the magnitude rounded to the nearest hundredth (ties away from
zero) with exactly two fractional digits.  (The exponential-notation branch
for magnitudes at or above 1e21 is not modeled.) -/
def toFixed2 (x : Rat) : String :=
  let sign := if x.num < 0 then "-" else ""
  let mag := if x.num < 0 then Rat.neg x else x
  let n : Nat := (Rat.floor (Rat.add (Rat.mul mag (mkRat 100 1)) (mkRat 1 2))).toNat
  sign ++ toString (n / 100) ++ "." ++ pad2 (n % 100)

/-- `[^a-zA-Z0-9]` complement: the characters `replace(/[^a-zA-Z0-9]/g, '')`
keeps. -/
def isAlnum (c : Char) : Bool :=
  ('a' ≤ c && c ≤ 'z') || ('A' ≤ c && c ≤ 'Z') || ('0' ≤ c && c ≤ '9')

/-- The sanitized description used in `generateUniqueId`: non-alphanumeric
characters stripped, then truncated to 50 characters. -/
def cleanDescription (s : String) : String := String.mk ((s.toList.filter isAlnum).take 50)

/-- The FITID source string of `generateUniqueId` before the final
truncation: date, amount to two decimals, sanitized description and 0-based
index, joined by hyphens. -/
def rawUniqueId (t : Transaction) (index : Nat) : String :=
  t.date ++ "-" ++ toFixed2 t.amount ++ "-" ++ cleanDescription t.description
    ++ "-" ++ natToString index

/-- `generateUniqueId(transaction, index)`: the raw identifier truncated to
the OFX FITID limit of 255 characters (`slice(0, 255)`). -/
def generateUniqueId (t : Transaction) (index : Nat) : String :=
  String.mk ((rawUniqueId t index).toList.take 255)

/-- The comparator `(a, b) => a.date.localeCompare(b.date)` as an order on
transactions: lexicographic comparison of the date strings (which coincides
with `localeCompare` on the ASCII digit strings at hand). -/
def dateLe (a b : Transaction) : Prop := a.date ≤ b.date

instance : DecidableRel dateLe :=
  fun a b => inferInstanceAs (Decidable (a.date ≤ b.date))

instance : IsTrans Transaction dateLe :=
  ⟨fun _ _ _ h1 h2 => le_trans h1 h2⟩

instance : IsTotal Transaction dateLe :=
  ⟨fun a b => le_total a.date b.date⟩

/-- `[...transactions].sort((a, b) => a.date.localeCompare(b.date))`: a
stable sort by date.  `Array.prototype.sort` is stable, and a stable sort is
uniquely determined by its comparator, so insertion sort is a faithful
model. -/
def sortedTransactions (ts : List Transaction) : List Transaction :=
  List.insertionSort dateLe ts

/-- `sortedTransactions.length > 0 ? sortedTransactions[0].date : dateCreated`. -/
def startDate (ts : List Transaction) (dateCreated : String) : String :=
  match sortedTransactions ts with
  | [] => dateCreated
  | t :: _ => t.date

/-- `sortedTransactions.length > 0 ? sortedTransactions[at the end].date : dateCreated`. -/
def endDate (ts : List Transaction) (dateCreated : String) : String :=
  match (sortedTransactions ts).getLast? with
  | none => dateCreated
  | some t => t.date

/-- One character of the MEMO escaping chain
`replace(/&/g,'&amp;').replace(/</g,'&lt;').replace(/>/g,'&gt;')`; the
sequential replacements equal this single character-wise pass because the
replacement of `&` happens first. -/
def escapeMemoChar (c : Char) : Str :=
  if c = '&' then "&amp;".toList
  else if c = '<' then "&lt;".toList
  else if c = '>' then "&gt;".toList
  else [c]

def escapeMemo (s : String) : String := String.mk ((s.toList.map escapeMemoChar).flatten)

/-- One `<STMTTRN>` block of the transaction list template. -/
def renderTransaction (t : Transaction) (index : Nat) : String :=
  "\n<STMTTRN>\n<TRNTYPE>" ++ (if 0 < t.amount.num then "CREDIT" else "DEBIT")
  ++ "</TRNTYPE>\n<DTPOSTED>" ++ t.date
  ++ "</DTPOSTED>\n<TRNAMT>" ++ toFixed2 t.amount
  ++ "</TRNAMT>\n<FITID>" ++ generateUniqueId t index
  ++ "</FITID>\n<MEMO>" ++ escapeMemo t.description
  ++ "</MEMO>\n</STMTTRN>"

/-- `sortedTransactions.map((t, index) => ...).join('')`. -/
def transactionListString (ts : List Transaction) : String :=
  String.join ((sortedTransactions ts).enum.map (fun p => renderTransaction p.2 p.1))

/-- The FITID fields appearing in one document, in list order. -/
def fitids (ts : List Transaction) : List String :=
  (sortedTransactions ts).enum.map (fun p => generateUniqueId p.2 p.1)

/-- The fixed OFX template with its four holes (creation date twice, start
and end dates, rendered transaction list); the source template's trailing
newline is removed by its final `.trim()`. -/
def ofxDocument (dateCreated sd ed txnList : String) : String :=
  "OFXHEADER:100\nDATA:OFXSGML\nVERSION:102\nSECURITY:NONE\nENCODING:USASCII\nCHARSET:1252\nCOMPRESSION:NONE\nOLDFILEUID:NONE\nNEWFILEUID:NONE\n<OFX>\n<SIGNONMSGSRSV1>\n<SONRS>\n<STATUS>\n<CODE>0</CODE>\n<SEVERITY>INFO</SEVERITY>\n</STATUS>\n<DTSERVER>"
  ++ dateCreated
  ++ "</DTSERVER>\n<LANGUAGE>POR</LANGUAGE>\n</SONRS>\n</SIGNONMSGSRSV1>\n<BANKMSGSRSV1>\n<STMTTRNRS>\n<TRNUID>1</TRNUID>\n<STATUS>\n<CODE>0</CODE>\n<SEVERITY>INFO</SEVERITY>\n</STATUS>\n<STMTRS>\n<CURDEF>BRL</CURDEF>\n<BANKACCTFROM>\n<BANKID>001</BANKID>\n<ACCTID>999999-9</ACCTID>\n<ACCTTYPE>CHECKING</ACCTTYPE>\n</BANKACCTFROM>\n<BANKTRANLIST>\n<DTSTART>"
  ++ sd
  ++ "</DTSTART>\n<DTEND>" ++ ed ++ "</DTEND>" ++ txnList
  ++ "\n</BANKTRANLIST>\n<LEDGERBAL>\n<BALAMT>0.00</BALAMT>\n<DTASOF>"
  ++ dateCreated
  ++ "</DTASOF>\n</LEDGERBAL>\n</STMTRS>\n</STMTTRNRS>\n</BANKMSGSRSV1>\n</OFX>"

/-- `createOfxContent(transactions)`.  The ambient `new Date()` read by the
source is made explicit as the `dateCreated` parameter. -/
def createOfxContent (transactions : List Transaction) (dateCreated : String) : String :=
  ofxDocument dateCreated (startDate transactions dateCreated)
    (endDate transactions dateCreated) (transactionListString transactions)

/-- Read a field as a string; values of a type other than the
schema-mandated string are modeled as absent. -/
def Jsval.asStr : Option Jsval → Option String
  | some (.str s) => some s
  | _ => none

/-- View one element of the `transactions` array as a loosely-typed record;
the amount field is passed through as the raw JSON value, since the
validation observes nothing beyond its presence. -/
def toRawRecord (j : Jsval) : RawRecord :=
  ⟨Jsval.asStr (j.getField "date"), Jsval.asStr (j.getField "description"),
    j.getField "amount"⟩

/-- The post-parse phase of `extractTransactionsFromChunk`: if the parsed
object has a `transactions` array, validate and normalize each element and
drop the rejects; any other shape (field absent, falsy, or not an array)
yields the empty list. -/
def extractFromParsed (j : Jsval) : List LooseTransaction :=
  match j.getField "transactions" with
  | some (Jsval.arr txs) => (txs.map (fun x => normalizeRecord (toRawRecord x))).filterMap id
  | _ => []

/-- `text.indexOf(c)` returning `none` for `-1`. -/
def jsIndexOf (s : Str) (c : Char) : Option Nat :=
  match s with
  | [] => none
  | a :: rest => if a = c then some 0 else (jsIndexOf rest c).map (· + 1)

/-- `text.lastIndexOf(c)` returning `none` for `-1`. -/
def jsLastIndexOf (s : Str) (c : Char) : Option Nat :=
  (jsIndexOf s.reverse c).map (fun i => s.length - 1 - i)

def emptyResponseMsg : String :=
  "The AI model returned an empty response. This may be due to the file content or safety filters."

def badFormatMsg : String :=
  "The AI returned data in an unexpected format."

/-- The response handling of one attempt in `extractTransactionsFromChunk`:
reject an empty response; locate the JSON object between the first brace and
the last closing brace, rejecting when no such span exists; parse it
(`JSON.parse` is the environment parameter `parse`, whose failure
propagates); then extract records leniently via `extractFromParsed`. -/
def processResponseText (parse : Str → Except String Jsval) (text : Str) :
    Except String (List LooseTransaction) :=
  if text.isEmpty then Except.error emptyResponseMsg
  else
    match jsIndexOf text '{', jsLastIndexOf text '}' with
    | some i, some j =>
      if j < i then Except.error badFormatMsg
      else
        match parse ((text.drop i).take (j + 1 - i)) with
        | Except.error e => Except.error e
        | Except.ok jv => Except.ok (extractFromParsed jv)
    | _, _ => Except.error badFormatMsg

def MAX_RETRIES : Nat := 3

def INITIAL_BACKOFF_MS : Rat := 2000

/-- `/rate limit|429/i.test(errorMessage)`: case-insensitive search for a
rate-limit indicator in the error message. -/
def isRateLimitError (msg : String) : Bool :=
  decide ("rate limit".toList <:+: msg.toList.map Char.toLower)
    || decide ("429".toList <:+: msg.toList)

/-- The `for (attempt = 0; attempt < MAX_RETRIES; attempt++)` retry loop of
`extractTransactionsFromChunk`, with the external call of attempt `a`
abstracted as `call a` and the random jitter of attempt `a` as `jitter a`.
Along with the final result it collects the list of backoff delays
(in milliseconds) awaited between attempts. -/
def retryAttempts {α : Type} (call : Nat → Except String α) (jitter : Nat → Rat) :
    Nat → Nat → Except String α × List Rat
  | _, 0 => (Except.error "Failed to process a document chunk after multiple retries.", [])
  | attempt, fuel + 1 =>
    match call attempt with
    | Except.ok v => (Except.ok v, [])
    | Except.error e =>
      if isRateLimitError e && decide (attempt < MAX_RETRIES - 1) then
        let p := retryAttempts call jitter (attempt + 1) fuel
        (p.1, (INITIAL_BACKOFF_MS * 2 ^ attempt + jitter attempt) :: p.2)
      else (Except.error e, [])

/-- The retry wrapper of `extractTransactionsFromChunk`: run the attempt loop
from attempt 0 with the attempt budget `MAX_RETRIES`. -/
def extractTransactionsFromChunk {α : Type} (call : Nat → Except String α)
    (jitter : Nat → Rat) : Except String α × List Rat :=
  retryAttempts call jitter 0 MAX_RETRIES

def MAX_CHUNK_SIZE : Nat := 150000

def noTransactionsMsg : String :=
  "No transactions could be found in the document. Please check the file content and try again."

def ofxHeaderMarker : Str := "OFXHEADER:".toList

/-- The sequential chunk loop of `extractTransactionsFromStatement`, with the
per-chunk extraction abstracted as `extract`: aggregate the per-chunk
transaction lists in order, wrapping the first failure with its 1-based part
number and aborting the run.  The second component counts how many chunk
extractions were issued. -/
def processChunks (extract : Str → Except String (List Transaction)) :
    List Str → Nat → Except String (List Transaction) × Nat
  | [], _ => (Except.ok [], 0)
  | c :: cs, i =>
    match extract c with
    | Except.error e =>
      (Except.error ("Failed to process part " ++ toString (i + 1)
        ++ " of the document. Original error: " ++ e), 1)
    | Except.ok ts =>
      let p := processChunks extract cs (i + 1)
      let agg : Except String (List Transaction) :=
        match p.1 with
        | Except.error e => Except.error e
        | Except.ok rest => Except.ok (ts ++ rest)
      (agg, p.2 + 1)

/-- The conversion path of `handleFileSelect` composed with
`extractTransactionsFromStatement`: OFX fast path on a literal header-marker
prefix of the trimmed content; otherwise chunk, extract sequentially,
fail the run when the aggregate is empty, and serialize.  The second
component counts extraction-capability chunk calls. -/
def handleFileSelect (extract : Str → Except String (List Transaction))
    (content : Str) (today : String) : Except String String × Nat :=
  if ofxHeaderMarker.isPrefixOf (jsTrim content) then (Except.ok (String.mk content), 0)
  else
    let p := processChunks extract (createChunks content MAX_CHUNK_SIZE) 0
    match p.1 with
    | Except.error e => (Except.error e, p.2)
    | Except.ok ts =>
      if ts.length = 0 then (Except.error noTransactionsMsg, p.2)
      else (Except.ok (createOfxContent ts today), p.2)

/-! ## Helper lemmas about the chunker's string operations -/

theorem splitOnNl_ne_nil (s : Str) : splitOnNl s ≠ [] := by
  cases s with
  | nil => simp [splitOnNl]
  | cons c cs =>
    simp only [splitOnNl]
    cases h : splitOnNl cs with
    | nil => simp
    | cons r rs => dsimp only; split <;> simp

theorem splitOnNl_no_newline : ∀ (s : Str), ∀ l ∈ splitOnNl s, '\n' ∉ l := by
  intro s
  induction s with
  | nil =>
    intro l hl
    simp only [splitOnNl, List.mem_singleton] at hl
    subst hl; simp
  | cons c cs ih =>
    intro l hl
    simp only [splitOnNl] at hl
    cases h : splitOnNl cs with
    | nil => exact absurd h (splitOnNl_ne_nil cs)
    | cons r rs =>
      rw [h] at hl
      dsimp only at hl
      by_cases hc : c = '\n'
      · rw [if_pos hc] at hl
        rcases List.mem_cons.mp hl with rfl | hl
        · simp
        · exact ih l (h ▸ hl)
      · rw [if_neg hc] at hl
        rcases List.mem_cons.mp hl with rfl | hl
        · intro hmem
          rcases List.mem_cons.mp hmem with heq | hmem
        
          · exact hc heq.symm
          · exact ih r (by rw [h]; exact List.mem_cons_self r rs) hmem
        · exact ih l (by rw [h]; exact List.mem_cons_of_mem r hl)

theorem splitOnNl_append_nl (l rest : Str) (hl : '\n' ∉ l) :
    splitOnNl (l ++ '\n' :: rest) = l :: splitOnNl rest := by
  induction l with
  | nil =>
    simp only [List.nil_append, splitOnNl]
    cases h : splitOnNl rest with
    | nil => exact absurd h (splitOnNl_ne_nil rest)
    | cons r rs => simp
  | cons c l ih =>
    have hc : c ≠ '\n' := fun h => hl (h ▸ List.mem_cons_self c l)
    have hl' : '\n' ∉ l := fun h => hl (List.mem_cons_of_mem _ h)
    simp only [List.cons_append, splitOnNl, List.append_eq, ih hl']
    rw [if_neg hc]

theorem renderLines_cons (l : Str) (ls : List Str) :
    renderLines (l :: ls) = l ++ '\n' :: renderLines ls := by
  simp [renderLines]

theorem renderLines_singleton (l : Str) : renderLines [l] = l ++ ['\n'] := by
  simp [renderLines]

theorem renderLines_append (a b : List Str) :
    renderLines (a ++ b) = renderLines a ++ renderLines b := by
  simp [renderLines]

theorem splitOnNl_renderLines (ls : List Str) (h : ∀ l ∈ ls, '\n' ∉ l) :
    splitOnNl (renderLines ls) = ls ++ [[]] := by
  induction ls with
  | nil => rfl
  | cons l ls ih =>
    rw [renderLines_cons, splitOnNl_append_nl l _ (h l (List.mem_cons_self l ls)),
      ih (fun x hx => h x (List.mem_cons_of_mem l hx))]
    rfl

theorem hasContent_append (a b : Str) :
    hasContent (a ++ b) = (hasContent a || hasContent b) := by
  simp [hasContent, List.any_append]

theorem hasContent_cons_nl (s : Str) : hasContent ('\n' :: s) = hasContent s := by
  simp [hasContent, isJsSpace]

theorem hasContent_renderLines (ls : List Str) :
    hasContent (renderLines ls) = ls.any hasContent := by
  induction ls with
  | nil => rfl
  | cons l ls ih =>
    rw [renderLines_cons, hasContent_append, hasContent_cons_nl, ih, List.any_cons]

theorem filter_hasContent_eq_nil {cs : List Str} (h : hasContent (renderLines cs) = false) :
    cs.filter hasContent = [] := by
  rw [List.filter_eq_nil_iff]
  rw [hasContent_renderLines] at h
  simpa using h

theorem flatten_map_renderLines (gs : List (List Str)) :
    (gs.map renderLines).flatten = renderLines gs.flatten := by
  induction gs with
  | nil => rfl
  | cons g gs ih =>
    rw [List.map_cons, List.flatten_cons, List.flatten_cons, ih, renderLines_append]

/-- Every run of `chunksLoop` starting from a buffer holding the rendered
lines `cs` produces chunks that are each a rendered group of consecutive
lines; the concatenation of those groups has exactly the non-whitespace lines
of the input (in order), and is a sublist of the input lines. -/
theorem chunksLoop_structure (n : Nat) (lines : List Str) :
    ∀ cs : List Str,
      ∃ gs : List (List Str),
        chunksLoop n lines (renderLines cs) = gs.map renderLines ∧
        gs.flatten.filter hasContent = (cs ++ lines).filter hasContent ∧
        gs.flatten.Sublist (cs ++ lines) := by
  induction lines with
  | nil =>
    intro cs
    cases h : hasContent (renderLines cs) with
    | true => exact ⟨[cs], by simp [chunksLoop, h], by simp, by simp⟩
    | false =>
      refine ⟨[], by simp [chunksLoop, h], ?_, by simp⟩
      simp [filter_hasContent_eq_nil h]
  | cons line rest ih =>
    intro cs
    by_cases hov : n < (renderLines cs).length + line.length + 1
    · obtain ⟨gs, hg1, hg2, hg3⟩ := ih [line]
      rw [renderLines_singleton] at hg1
      simp only [List.singleton_append] at hg2 hg3
      cases h : hasContent (renderLines cs) with
      | true =>
        refine ⟨cs :: gs, ?_, ?_, ?_⟩
        · simp only [chunksLoop, if_pos hov, h, if_pos, hg1]
          simp
        · rw [List.flatten_cons, List.filter_append, hg2, ← List.filter_append]
        · rw [List.flatten_cons]
          exact List.Sublist.append_left hg3 cs
      | false =>
        refine ⟨gs, ?_, ?_, ?_⟩
        · simp only [chunksLoop, if_pos hov, h, hg1]
          simp
        · rw [List.filter_append, filter_hasContent_eq_nil h, List.nil_append]
          exact hg2
        · exact List.Sublist.trans hg3 (List.sublist_append_right cs (line :: rest))
    · have hext : renderLines cs ++ (line ++ ['\n']) = renderLines (cs ++ [line]) := by
        rw [renderLines_append, renderLines_singleton]
      obtain ⟨gs, hg1, hg2, hg3⟩ := ih (cs ++ [line])
      refine ⟨gs, ?_, ?_, ?_⟩
      · simp only [chunksLoop, if_neg hov]
        rw [hext, hg1]
      · rw [hg2, List.append_assoc]
        simp
      · refine List.Sublist.trans hg3 ?_
        rw [List.append_assoc]
        simp

/-- C2: for every input text and every maximum chunk size, concatenating the
chunks produced by `createChunks` recovers every line of the original text
that has non-whitespace content, exactly once and in original order; and
every line of the concatenation (beyond the terminal empty field produced by
the final newline) is an original line in original order, so whitespace-only
lines can at most be dropped at chunk boundaries and no content is ever
fabricated. -/
theorem createChunks_recovers_lines (text : Str) (n : Nat) :
    (splitOnNl ((createChunks text n).flatten)).filter hasContent
        = (splitOnNl text).filter hasContent
      ∧ (splitOnNl ((createChunks text n).flatten)).Sublist (splitOnNl text ++ [[]]) := by
  by_cases hsmall : text.length ≤ n
  · rw [createChunks, if_pos hsmall]
    constructor
    · simp
    · simp only [List.flatten_cons, List.flatten_nil, List.append_nil]
      exact List.sublist_append_left (splitOnNl text) [[]]
  · rw [createChunks, if_neg hsmall]
    obtain ⟨gs, hg1, hg2, hg3⟩ := chunksLoop_structure n (splitOnNl text) []
    have hg1' : chunksLoop n (splitOnNl text) [] = gs.map renderLines := hg1
    simp only [List.nil_append] at hg2 hg3
    have hflat : (chunksLoop n (splitOnNl text) []).flatten
        = renderLines gs.flatten := by
      rw [hg1', flatten_map_renderLines]
    have hnl : ∀ l ∈ gs.flatten, '\n' ∉ l := fun l hl =>
      splitOnNl_no_newline text l (hg3.subset hl)
    have hsp : splitOnNl ((chunksLoop n (splitOnNl text) []).flatten)
        = gs.flatten ++ [[]] := by
      rw [hflat, splitOnNl_renderLines _ hnl]
    constructor
    · rw [hsp, List.filter_append, hg2]
      simp [hasContent]
    · rw [hsp]
      exact hg3.append (List.Sublist.refl [[]])

/-! ## The validator/normalizer -/

theorem digitChar_isDigit {n : Nat} (h : n < 10) : (Nat.digitChar n).isDigit = true := by
  interval_cases n <;> decide

theorem toYYYYMMDD_toList (y m d : Nat) :
    (toYYYYMMDD y m d).toList =
      [Nat.digitChar (y / 1000 % 10), Nat.digitChar (y / 100 % 10),
        Nat.digitChar (y / 10 % 10), Nat.digitChar (y % 10),
        Nat.digitChar (m / 10 % 10), Nat.digitChar (m % 10),
        Nat.digitChar (d / 10 % 10), Nat.digitChar (d % 10)] := rfl

theorem toYYYYMMDD_length (y m d : Nat) : (toYYYYMMDD y m d).length = 8 := rfl

theorem one_le_daysInMonth (y : Int) (mo : Nat) : 1 ≤ daysInMonth y mo := by
  unfold daysInMonth
  split
  · split <;> norm_num
  · split <;> norm_num

theorem validYMD_nextDay {y : Int} {mo d : Nat} (h : validYMD y mo d = true) :
    validYMD (nextDay y mo d).1 (nextDay y mo d).2.1 (nextDay y mo d).2.2 = true := by
  simp only [validYMD, Bool.and_eq_true, decide_eq_true_eq] at h ⊢
  obtain ⟨⟨⟨h1, h2⟩, h3⟩, h4⟩ := h
  unfold nextDay
  split
  · rename_i hlt
    exact ⟨⟨⟨h1, h2⟩, Nat.le_succ_of_le h3⟩, hlt⟩
  · split
    · rename_i hmo
      exact ⟨⟨⟨Nat.succ_le_succ (Nat.zero_le mo), hmo⟩, le_refl 1⟩, one_le_daysInMonth _ _⟩
    · exact ⟨⟨⟨le_refl 1, by norm_num⟩, le_refl 1⟩, one_le_daysInMonth _ _⟩

theorem validYMD_prevDay {y : Int} {mo d : Nat} (h : validYMD y mo d = true) :
    validYMD (prevDay y mo d).1 (prevDay y mo d).2.1 (prevDay y mo d).2.2 = true := by
  simp only [validYMD, Bool.and_eq_true, decide_eq_true_eq] at h ⊢
  obtain ⟨⟨⟨h1, h2⟩, h3⟩, h4⟩ := h
  unfold prevDay
  split
  · rename_i hlt
    exact ⟨⟨⟨h1, h2⟩, Nat.le_sub_one_of_lt hlt⟩, le_trans (Nat.sub_le d 1) h4⟩
  · split
    · rename_i hmo
      exact ⟨⟨⟨Nat.le_sub_one_of_lt hmo, le_trans (Nat.sub_le mo 1) h2⟩,
        one_le_daysInMonth _ _⟩, le_refl _⟩
    · refine ⟨⟨⟨by norm_num, le_refl 12⟩, by norm_num⟩, ?_⟩
      simp [daysInMonth]

theorem validYMD_shiftDate {y : Int} {mo d : Nat} (k : Int) (h : validYMD y mo d = true) :
    validYMD (shiftDate y mo d k).1 (shiftDate y mo d k).2.1 (shiftDate y mo d k).2.2
      = true := by
  unfold shiftDate
  split
  · exact validYMD_prevDay h
  · split
    · exact validYMD_nextDay h
    · exact h

theorem jsParseDate_valid {s : String} {y : Int} {mo d : Nat}
    (h : jsParseDate s = some (y, mo, d)) :
    1 ≤ mo ∧ mo ≤ 12 ∧ 1 ≤ d ∧ d ≤ daysInMonth y mo := by
  have hv : validYMD y mo d = true := by
    rw [jsParseDate] at h
    split at h
    · exact absurd h (by simp)
    · split at h
      · exact absurd h (by simp)
      · split at h
        · rename_i hcond
          split at h
          · split at h
            · simp only [Option.some.injEq, Prod.mk.injEq] at h
              obtain ⟨hy, hm, hd⟩ := h
              subst hy; subst hm; subst hd
              exact hcond
            · exact absurd h (by simp)
          · split at h
            · exact absurd h (by simp)
            · split at h
              · rename_i hh mm ss ms off heq2 htv
                simp only [Option.some.injEq] at h
                have hs := validYMD_shiftDate (utcDayShift hh mm ss ms off) hcond
                rw [h] at hs
                simpa using hs
              · exact absurd h (by simp)
          · exact absurd h (by simp)
        · exact absurd h (by simp)
  simp only [validYMD, Bool.and_eq_true, decide_eq_true_eq] at hv
  exact ⟨hv.1.1.1, hv.1.1.2, hv.1.2, hv.2⟩

theorem normalizeRecord_eq_some {tx : RawRecord} {t : LooseTransaction}
    (h : normalizeRecord tx = some t) :
    tx.date.getD "" ≠ "" ∧ tx.description.getD "" ≠ "" ∧ tx.amount ≠ none ∧
      ∃ y mo d, jsParseDate (tx.date.getD "") = some (y, mo, d) ∧
        t = ⟨jsDateNormalize y mo d, tx.description.getD "", tx.amount.getD Jsval.null⟩ := by
  rw [normalizeRecord] at h
  split at h
  · exact absurd h (by simp)
  · rename_i hb
    simp only [jsFalsyStr, Bool.or_eq_true, decide_eq_true_eq,
      Option.isNone_iff_eq_none] at hb
    push_neg at hb
    obtain ⟨⟨hb1, hb2⟩, hb3⟩ := hb
    refine ⟨hb1, hb2, hb3, ?_⟩
    split at h
    · exact absurd h (by simp)
    · rename_i y mo d hp
      refine ⟨y, mo, d, hp, ?_⟩
      simpa using h.symm

/-- Evaluation of the normalizer on the spec's example record, for any
amount value (the validation observes nothing beyond its presence). -/
theorem normalizeRecord_coffee (v : Jsval) :
    normalizeRecord ⟨some "2024-03-05", some "Coffee", some v⟩
      = some ⟨"20240305", "Coffee", v⟩ := by
  have h1 : jsParseDate "2024-03-05" = some (2024, 3, 5) := by decide
  have h2 : jsDateNormalize 2024 3 5 = "20240305" := by decide
  have hcond : (jsFalsyStr (some "2024-03-05") || jsFalsyStr (some "Coffee")
      || (some v).isNone) = false := by
    rw [show jsFalsyStr (some "2024-03-05") = false from by decide,
      show jsFalsyStr (some "Coffee") = false from by decide]
    rfl
  dsimp only [normalizeRecord]
  rw [hcond]
  dsimp only [Bool.false_eq_true, if_false, Option.getD_some]
  rw [h1]
  dsimp only
  rw [h2]
  rfl

/-- C3 (amended): `normalizeRecord` returns `none` exactly when `date` or
`description` is missing or empty (the code's falsiness test), when `amount`
is missing (any present JSON value, including `null` and `0`, is accepted),
or when the date is rejected by the runtime's date parsing; otherwise it
returns the record with the date rewritten to the first ten characters of
the ISO rendering with the hyphens removed — the canonical `YYYYMMDD` for
four-digit years, a non-canonical sign-year-month string for expanded
years — and with `description` and `amount` unchanged; in particular
`{date: "2024-03-05", description: "Coffee", amount: -4.5}` normalizes to
`{date: "20240305", description: "Coffee", amount: -4.5}`. -/
theorem normalizeRecord_spec (tx : RawRecord) :
    (normalizeRecord tx = none ↔
      tx.date.getD "" = "" ∨ tx.description.getD "" = "" ∨ tx.amount = none ∨
        jsParseDate (tx.date.getD "") = none)
    ∧ (∀ t, normalizeRecord tx = some t →
        ∃ y mo d, jsParseDate (tx.date.getD "") = some (y, mo, d) ∧
          t = ⟨jsDateNormalize y mo d, tx.description.getD "", tx.amount.getD Jsval.null⟩)
    ∧ normalizeRecord ⟨some "2024-03-05", some "Coffee", some (Jsval.num (-(9 / 2)))⟩
        = some ⟨"20240305", "Coffee", Jsval.num (-(9 / 2))⟩ := by
  refine ⟨⟨?_, ?_⟩, ?_, normalizeRecord_coffee (Jsval.num (-(9 / 2)))⟩
  · intro h
    by_contra hcon
    push_neg at hcon
    obtain ⟨h1, h2, h3, h4⟩ := hcon
    rw [normalizeRecord] at h
    have h3' : tx.amount.isSome = true := Option.isSome_iff_ne_none.mpr h3
    have hb : (jsFalsyStr tx.date || jsFalsyStr tx.description || tx.amount.isNone) = false := by
      simp [jsFalsyStr, h1, h2, Option.isNone_iff_eq_none, h3, h3']
    rw [hb] at h
    simp only [Bool.false_eq_true, if_false] at h
    cases hp : jsParseDate (tx.date.getD "") with
    | none => exact h4 hp
    | some ymd =>
      obtain ⟨y, mo, d⟩ := ymd
      rw [hp] at h
      simp at h
  · intro h
    rw [normalizeRecord]
    rcases h with h | h | h | h
    · simp [jsFalsyStr, h]
    · simp [jsFalsyStr, h]
    · simp [h]
    · split
      · rfl
      · rw [h]
  · intro t ht
    obtain ⟨-, -, -, y, mo, d, hp, hteq⟩ := normalizeRecord_eq_some ht
    exact ⟨y, mo, d, hp, hteq⟩

set_option maxRecDepth 4000 in
/-- C3 counterexample: a raw record none of whose fields is missing and whose
date parses as a calendar date is nonetheless rejected by the code, because
the falsiness check `!tx.description` also rejects a present-but-empty
description.  This refutes the claim's "returns null exactly when date,
description, or amount is missing or the date is unparseable". -/
theorem normalizeRecord_rejects_empty_description :
    normalizeRecord ⟨some "2024-03-05", some "", some (Jsval.num 1)⟩ = none
    ∧ (⟨some "2024-03-05", some "", some (Jsval.num 1)⟩ : RawRecord).date ≠ none
    ∧ (⟨some "2024-03-05", some "", some (Jsval.num 1)⟩ : RawRecord).description ≠ none
    ∧ (⟨some "2024-03-05", some "", some (Jsval.num 1)⟩ : RawRecord).amount ≠ none
    ∧ jsParseDate "2024-03-05" ≠ none := by
  refine ⟨rfl, fun hc => Option.noConfusion hc, fun hc => Option.noConfusion hc,
    fun hc => Option.noConfusion hc, by decide⟩

/-- C10 (amended): every transaction surviving validation/normalization has a
non-empty description, an amount that was present in the raw record and is
kept verbatim (but is any JSON value — the `=== undefined` test checks
presence, not type), and a date the runtime's parser accepted, stored in the
toISOString-slice rendering; that rendering is the canonical 8-digit all-digit
`YYYYMMDD` form of a valid calendar date whenever the parsed year has at most
four digits (0..9999). -/
theorem normalized_transaction_invariant (tx : RawRecord) (t : LooseTransaction)
    (h : normalizeRecord tx = some t) :
    t.description ≠ ""
    ∧ (∃ v, tx.amount = some v ∧ t.amount = v)
    ∧ (∃ y mo d, jsParseDate (tx.date.getD "") = some (y, mo, d)
        ∧ 1 ≤ mo ∧ mo ≤ 12 ∧ 1 ≤ d ∧ d ≤ daysInMonth y mo
        ∧ t.date = jsDateNormalize y mo d
        ∧ (0 ≤ y → y ≤ 9999 →
            t.date.length = 8 ∧ ∀ c ∈ t.date.toList, c.isDigit = true)) := by
  obtain ⟨hd, hdesc, ham, y, mo, d, hp, hteq⟩ := normalizeRecord_eq_some h
  obtain ⟨hm1, hm2, hd1, hd2⟩ := jsParseDate_valid hp
  obtain ⟨v, hv⟩ := Option.ne_none_iff_exists'.mp ham
  subst hteq
  refine ⟨hdesc, ⟨v, hv, by rw [hv]; rfl⟩,
    ⟨y, mo, d, hp, hm1, hm2, hd1, hd2, rfl, ?_⟩⟩
  intro hy0 hy9
  have hcond : (0 ≤ y && y ≤ 9999) = true := by
    simp [hy0, hy9]
  rw [jsDateNormalize, if_pos hcond]
  refine ⟨toYYYYMMDD_length _ _ _, ?_⟩
  intro c hc
  rw [toYYYYMMDD_toList] at hc
  simp only [List.mem_cons, List.not_mem_nil, or_false] at hc
  rcases hc with rfl | rfl | rfl | rfl | rfl | rfl | rfl | rfl
  all_goals exact digitChar_isDigit (Nat.mod_lt _ (by norm_num))

set_option maxRecDepth 4000 in
/-- C10 counterexample: the `tx.amount === undefined` test checks only
presence, so a record whose amount is JSON `null` (or any non-number)
survives validation with an unpopulated numeric amount; and an
expanded-year date such as `+010000-01-01` is accepted by `new Date` and
stored as the 9-character `+01000001` (the ten-character ISO slice drops the
day), so a survivor's date need not be an 8-digit `YYYYMMDD`.  This refutes
the claim that every survivor has all three fields populated and an 8-digit
date. -/
theorem survivor_invariant_violations :
    (normalizeRecord ⟨some "2024-03-05", some "Coffee", some Jsval.null⟩
        = some ⟨"20240305", "Coffee", Jsval.null⟩
      ∧ ∀ x : Rat, Jsval.null ≠ Jsval.num x)
    ∧ (normalizeRecord ⟨some "+010000-01-01", some "x", some (Jsval.num 1)⟩
        = some ⟨"+01000001", "x", Jsval.num 1⟩
      ∧ ("+01000001" : String).length ≠ 8) := by
  refine ⟨⟨rfl, fun x hc => Jsval.noConfusion hc⟩, rfl, by decide⟩

theorem normalized_transaction_invariant_witness :
    (⟨"20240305", "Coffee", Jsval.num 1⟩ : LooseTransaction).description ≠ ""
    ∧ ∃ v, (⟨some "2024-03-05", some "Coffee", some (Jsval.num 1)⟩ : RawRecord).amount
          = some v
        ∧ (⟨"20240305", "Coffee", Jsval.num 1⟩ : LooseTransaction).amount = v := by
  have h := normalized_transaction_invariant
    ⟨some "2024-03-05", some "Coffee", some (Jsval.num 1)⟩
    ⟨"20240305", "Coffee", Jsval.num 1⟩ (normalizeRecord_coffee (Jsval.num 1))
  exact ⟨h.1, h.2.1⟩

/-! ## The serializer: sort order, bounds, stability -/

theorem filter_date_orderedInsert (d : String) (t : Transaction) (l : List Transaction) :
    (List.orderedInsert dateLe t l).filter (fun u => u.date = d)
      = (t :: l).filter (fun u => u.date = d) := by
  induction l with
  | nil => rfl
  | cons b l ih =>
    by_cases hle : dateLe t b
    · rw [List.orderedInsert_of_le _ _ hle]
    · simp only [List.orderedInsert, if_neg hle]
      by_cases hbd : b.date = d
      · have hpt : ¬(t.date = d) := fun hh =>
          hle (show dateLe t b from le_of_eq (by rw [hh, hbd]))
        simp [List.filter_cons, hbd, hpt, ih]
      · simp [List.filter_cons, hbd, ih]

theorem filter_date_insertionSort (d : String) (ts : List Transaction) :
    (sortedTransactions ts).filter (fun u => u.date = d)
      = ts.filter (fun u => u.date = d) := by
  induction ts with
  | nil => rfl
  | cons t ts ih =>
    have hUnfold : sortedTransactions (t :: ts)
        = List.orderedInsert dateLe t (sortedTransactions ts) := rfl
    rw [hUnfold, filter_date_orderedInsert]
    simp only [List.filter_cons]
    rw [ih]

/-- C6: the serializer renders the records sorted by date ascending
(lexicographically on the fixed-width date strings), the sort is a stable
permutation of the input (records with equal dates keep their relative input
order), DTSTART/DTEND come from the first/last entries of the sorted
sequence, and for an empty input both bounds fall back to the serialization
date; `createOfxContent` is exactly the document template instantiated with
those values. -/
theorem serializer_sorts_by_date (ts : List Transaction) (today : String) :
    List.Sorted dateLe (sortedTransactions ts)
    ∧ (sortedTransactions ts).Perm ts
    ∧ (∀ d, (sortedTransactions ts).filter (fun u => u.date = d)
        = ts.filter (fun u => u.date = d))
    ∧ startDate ts today = ((sortedTransactions ts).head?.map Transaction.date).getD today
    ∧ endDate ts today = ((sortedTransactions ts).getLast?.map Transaction.date).getD today
    ∧ (ts = [] → startDate ts today = today ∧ endDate ts today = today)
    ∧ createOfxContent ts today
        = ofxDocument today (startDate ts today) (endDate ts today)
            (transactionListString ts) := by
  refine ⟨List.sorted_insertionSort dateLe ts, List.perm_insertionSort dateLe ts,
    fun d => filter_date_insertionSort d ts, ?_, ?_, ?_, rfl⟩
  · rw [startDate]
    cases h : sortedTransactions ts with
    | nil => simp
    | cons a l => simp
  · rw [endDate]
    cases h : (sortedTransactions ts).getLast? with
    | none => simp
    | some a => simp
  · intro h
    subst h
    exact ⟨rfl, rfl⟩

/-! ## FITID structure and uniqueness -/

theorem digitChar_inj {a b : Nat} (ha : a < 10) (hb : b < 10)
    (h : Nat.digitChar a = Nat.digitChar b) : a = b := by
  interval_cases a <;> interval_cases b <;>
    first
      | rfl
      | exact absurd h (by decide)

theorem digitChar_ne_dash {n : Nat} (h : n < 10) : Nat.digitChar n ≠ '-' := by
  interval_cases n <;> decide

theorem natToDigits_ne_nil (n : Nat) (h : n ≠ 0) : natToDigits n ≠ [] := by
  match n, h with
  | k + 1, _ =>
    rw [natToDigits]
    simp

theorem natToDigits_eq_nil {n : Nat} (h : natToDigits n = []) : n = 0 := by
  by_contra hn
  exact natToDigits_ne_nil n hn h

theorem natToDigits_no_dash (n : Nat) : '-' ∉ natToDigits n := by
  induction n using Nat.strong_induction_on with
  | _ n ih =>
    match n with
    | 0 => simp [natToDigits]
    | k + 1 =>
      rw [natToDigits]
      intro hmem
      rcases List.mem_append.mp hmem with hm | hm
      · exact ih ((k + 1) / 10) (Nat.div_lt_self (Nat.succ_pos k) (by norm_num)) hm
      · exact digitChar_ne_dash (Nat.mod_lt _ (by norm_num)) (List.mem_singleton.mp hm).symm

theorem natToDigits_inj : ∀ m n : Nat, natToDigits m = natToDigits n → m = n := by
  intro m
  induction m using Nat.strong_induction_on with
  | _ m ih =>
    intro n h
    match m, n with
    | 0, 0 => rfl
    | 0, k + 1 => simp [natToDigits] at h
    | k + 1, 0 => simp [natToDigits] at h
    | k + 1, j + 1 =>
      rw [natToDigits] at h
      rw [show natToDigits (j + 1)
          = natToDigits ((j + 1) / 10) ++ [Nat.digitChar ((j + 1) % 10)] from
        by rw [natToDigits]] at h
      have hlast := congrArg List.getLast? h
      rw [List.getLast?_concat, List.getLast?_concat] at hlast
      have hdig : (k + 1) % 10 = (j + 1) % 10 :=
        digitChar_inj (Nat.mod_lt _ (by norm_num)) (Nat.mod_lt _ (by norm_num))
          (Option.some.inj hlast)
      have hpre := congrArg List.dropLast h
      rw [List.dropLast_concat, List.dropLast_concat] at hpre
      have hdiv : (k + 1) / 10 = (j + 1) / 10 :=
        ih ((k + 1) / 10) (Nat.div_lt_self (Nat.succ_pos k) (by norm_num)) _ hpre
      omega

theorem natToDigits_ne_zero_singleton (n : Nat) (hn : n ≠ 0) :
    natToDigits n ≠ ['0'] := by
  match n, hn with
  | j + 1, _ =>
    rw [natToDigits]
    intro hl
    have hpre := congrArg List.dropLast hl
    rw [List.dropLast_concat] at hpre
    have hdiv : (j + 1) / 10 = 0 := natToDigits_eq_nil (by simpa using hpre)
    have hlast := congrArg List.getLast? hl
    rw [List.getLast?_concat] at hlast
    have hchar : Nat.digitChar ((j + 1) % 10) = Nat.digitChar 0 := by
      simpa using hlast
    have hmod : (j + 1) % 10 = 0 :=
      digitChar_inj (Nat.mod_lt _ (by norm_num)) (by norm_num) hchar
    omega

theorem natToString_inj {m n : Nat} (h : natToString m = natToString n) : m = n := by
  rw [natToString, natToString] at h
  by_cases hm : m = 0 <;> by_cases hn : n = 0
  · omega
  · rw [if_pos hm, if_neg hn] at h
    have hl : ['0'] = natToDigits n := congrArg String.data h
    exact absurd hl.symm (natToDigits_ne_zero_singleton n hn)
  · rw [if_neg hm, if_pos hn] at h
    have hl : natToDigits m = ['0'] := congrArg String.data h
    exact absurd hl (natToDigits_ne_zero_singleton m hm)
  · rw [if_neg hm, if_neg hn] at h
    exact natToDigits_inj m n (congrArg String.data h)

theorem natToString_no_dash (n : Nat) : '-' ∉ (natToString n).toList := by
  rw [natToString]
  by_cases hn : n = 0
  · rw [if_pos hn]
    decide
  · rw [if_neg hn]
    exact natToDigits_no_dash n

theorem takeWhile_ne_dash_append (r x : Str) (h : '-' ∉ r) :
    (r ++ '-' :: x).takeWhile (fun c => decide (c ≠ '-')) = r := by
  induction r with
  | nil => simp [List.takeWhile_cons]
  | cons c r ih =>
    have hc : c ≠ '-' := fun hh => h (hh ▸ List.mem_cons_self c r)
    have hr : '-' ∉ r := fun hh => h (List.mem_cons_of_mem c hh)
    rw [List.cons_append, List.takeWhile_cons]
    rw [if_pos (by simp [hc]), ih hr]

theorem rawUniqueId_toList (t : Transaction) (k : Nat) :
    (rawUniqueId t k).toList
      = (t.date ++ "-" ++ toFixed2 t.amount ++ "-"
          ++ cleanDescription t.description).toList ++ '-' :: (natToString k).toList := by
  simp [rawUniqueId, String.toList, String.data_append,
    show ("-" : String).data = ['-'] from rfl, List.append_assoc]

theorem rawUniqueId_index_inj {a b : Transaction} {i j : Nat}
    (h : rawUniqueId a i = rawUniqueId b j) : i = j := by
  have h1 := congrArg
    (fun s => ((String.toList s).reverse.takeWhile (fun c => decide (c ≠ '-')))) h
  simp only [rawUniqueId_toList, List.reverse_append, List.reverse_cons,
    List.append_assoc, List.singleton_append] at h1
  rw [takeWhile_ne_dash_append _ _ (fun hh => natToString_no_dash i (List.mem_reverse.mp hh)),
    takeWhile_ne_dash_append _ _ (fun hh => natToString_no_dash j (List.mem_reverse.mp hh))] at h1
  exact natToString_inj (String.ext (List.reverse_injective h1))

theorem generateUniqueId_length (t : Transaction) (k : Nat) :
    (generateUniqueId t k).length ≤ 255 := by
  have h : (generateUniqueId t k).length = ((rawUniqueId t k).toList.take 255).length := rfl
  rw [h, List.length_take]
  exact min_le_left _ _

theorem enum_eq_of_fst_eq {l : List Transaction} {p q : Nat × Transaction}
    (hp : p ∈ l.enum) (hq : q ∈ l.enum) (h : p.1 = q.1) : p = q := by
  rw [List.mem_enum_iff_getElem?] at hp hq
  rw [h] at hp
  exact Prod.ext h (Option.some.inj (hp.symm.trans hq))

theorem enum_nodup (l : List Transaction) : l.enum.Nodup :=
  List.Nodup.of_map Prod.fst (by rw [List.enum_map_fst]; exact List.nodup_range _)

theorem rawUniqueId_toList_flat (t : Transaction) (k : Nat) :
    (rawUniqueId t k).toList
      = t.date.toList ++ '-' :: ((toFixed2 t.amount).toList ++ '-' ::
          ((cleanDescription t.description).toList ++ '-' :: (natToString k).toList)) := by
  simp [rawUniqueId, String.toList, String.data_append,
    show ("-" : String).data = ['-'] from rfl, List.append_assoc]

theorem generateUniqueId_long_date (t : Transaction) (k : Nat)
    (h : 255 ≤ t.date.length) :
    generateUniqueId t k = String.mk (t.date.toList.take 255) := by
  rw [generateUniqueId]
  congr 1
  have h' : 255 ≤ t.date.toList.length := h
  rw [rawUniqueId_toList_flat, List.take_append_of_le_length h']

/-- C7 (amended): in the serialized document, the FITID of the record at
0-based sorted position `i` is exactly the hyphen-joined concatenation of its
date, its amount formatted to two decimal places, its sanitized
(alphanumeric-only, 50-character-truncated) description and `i`, the whole
truncated to 255 characters; every FITID has length at most 255; and,
provided each record's untruncated identifier already fits in 255 characters
(so the truncation cannot cut off the trailing position index), the FITIDs of
distinct records in one document are pairwise distinct. -/
theorem fitid_spec (ts : List Transaction) :
    (∀ p ∈ (sortedTransactions ts).enum,
      generateUniqueId p.2 p.1 = String.mk ((rawUniqueId p.2 p.1).toList.take 255))
    ∧ (∀ s ∈ fitids ts, s.length ≤ 255)
    ∧ ((∀ p ∈ (sortedTransactions ts).enum, (rawUniqueId p.2 p.1).length ≤ 255) →
        (fitids ts).Nodup) := by
  refine ⟨fun p _ => rfl, ?_, ?_⟩
  · intro s hs
    rw [fitids] at hs
    obtain ⟨p, hp, hps⟩ := List.mem_map.mp hs
    rw [← hps]
    exact generateUniqueId_length p.2 p.1
  · intro hshort
    rw [fitids]
    refine List.Nodup.map_on ?_ (enum_nodup _)
    intro p hp q hq hfe
    have hp' : (rawUniqueId p.2 p.1).toList.length ≤ 255 := hshort p hp
    have hq' : (rawUniqueId q.2 q.1).toList.length ≤ 255 := hshort q hq
    have ep : generateUniqueId p.2 p.1 = rawUniqueId p.2 p.1 := by
      rw [generateUniqueId, List.take_of_length_le hp']
      exact String.ext rfl
    have eq2 : generateUniqueId q.2 q.1 = rawUniqueId q.2 q.1 := by
      rw [generateUniqueId, List.take_of_length_le hq']
      exact String.ext rfl
    rw [ep, eq2] at hfe
    exact enum_eq_of_fst_eq hp hq (rawUniqueId_index_inj hfe)

set_option maxRecDepth 8000 in
/-- C7 counterexample: with a date reaching the 255-character FITID limit,
the truncation erases the distinguishing position index and two distinct
records receive byte-identical FITIDs, refuting unconditional pairwise
distinctness. -/
theorem fitid_collision :
    ¬ (fitids [⟨String.mk (List.replicate 255 'D'), "", mkRat 1 1⟩,
        ⟨String.mk (List.replicate 255 'D'), "", mkRat 2 1⟩]).Nodup
    ∧ (⟨String.mk (List.replicate 255 'D'), "", mkRat 1 1⟩ : Transaction)
        ≠ ⟨String.mk (List.replicate 255 'D'), "", mkRat 2 1⟩ := by
  have hlen : 255 ≤ (String.mk (List.replicate 255 'D')).length := by
    decide
  have hd : dateLe ⟨String.mk (List.replicate 255 'D'), "", mkRat 1 1⟩
      ⟨String.mk (List.replicate 255 'D'), "", mkRat 2 1⟩ := le_of_eq rfl
  have hsort : sortedTransactions
      [⟨String.mk (List.replicate 255 'D'), "", mkRat 1 1⟩,
        ⟨String.mk (List.replicate 255 'D'), "", mkRat 2 1⟩]
      = [⟨String.mk (List.replicate 255 'D'), "", mkRat 1 1⟩,
        ⟨String.mk (List.replicate 255 'D'), "", mkRat 2 1⟩] := by
    rw [sortedTransactions]
    simp only [List.insertionSort, List.orderedInsert]
    rw [if_pos hd]
  constructor
  · rw [fitids, hsort]
    have h1 : generateUniqueId ⟨String.mk (List.replicate 255 'D'), "", mkRat 1 1⟩ 0
        = String.mk (List.take 255 (List.replicate 255 'D')) :=
      generateUniqueId_long_date _ 0 hlen
    have h2 : generateUniqueId ⟨String.mk (List.replicate 255 'D'), "", mkRat 2 1⟩ 1
        = String.mk (List.take 255 (List.replicate 255 'D')) :=
      generateUniqueId_long_date _ 1 hlen
    have henum : ([⟨String.mk (List.replicate 255 'D'), "", mkRat 1 1⟩,
        ⟨String.mk (List.replicate 255 'D'), "", mkRat 2 1⟩] : List Transaction).enum
        = [(0, ⟨String.mk (List.replicate 255 'D'), "", mkRat 1 1⟩),
            (1, ⟨String.mk (List.replicate 255 'D'), "", mkRat 2 1⟩)] := rfl
    rw [henum, List.map_cons, List.map_cons, List.map_nil]
    intro hnd
    have hne := (List.nodup_cons.mp hnd).1
    apply hne
    rw [List.mem_singleton]
    show generateUniqueId ⟨String.mk (List.replicate 255 'D'), "", mkRat 1 1⟩ 0
      = generateUniqueId ⟨String.mk (List.replicate 255 'D'), "", mkRat 2 1⟩ 1
    rw [h1, h2]
  · intro h
    exact absurd (congrArg Transaction.amount h) (by decide)

theorem fitid_spec_witness :
    (fitids [⟨"20240305", "Coffee", mkRat (-9) 2⟩]).Nodup := by
  refine (fitid_spec [⟨"20240305", "Coffee", mkRat (-9) 2⟩]).2.2 ?_
  intro p hp
  have hs : sortedTransactions [⟨"20240305", "Coffee", mkRat (-9) 2⟩]
      = [⟨"20240305", "Coffee", mkRat (-9) 2⟩] := rfl
  rw [hs] at hp
  simp only [List.enum, List.enumFrom, List.mem_singleton] at hp
  subst hp
  decide

/-! ## The retry/backoff loop -/

/-- C1: the retry loop makes at most `MAX_RETRIES` = 3 attempts; an immediate
success returns with no waits; a failure classified as rate-limiting before
the last attempt triggers a backoff wait of `2000 * 2 ^ attempt` ms plus that
attempt's jitter and a retry (so two rate-limit failures followed by a
success yield the successful result and exactly those two waits); a
non-rate-limit failure propagates immediately with no wait; and when the
final attempt also fails, its error is raised as the terminal failure after
the two earlier waits.  The final conjunct shows only the first three
attempt outcomes are ever consulted. -/
theorem retry_policy {α : Type} (call : Nat → Except String α) (jitter : Nat → Rat) :
    (∀ v, call 0 = Except.ok v →
      extractTransactionsFromChunk call jitter = (Except.ok v, []))
    ∧ (∀ e0 e1 v, call 0 = Except.error e0 → isRateLimitError e0 = true →
        call 1 = Except.error e1 → isRateLimitError e1 = true →
        call 2 = Except.ok v →
        extractTransactionsFromChunk call jitter = (Except.ok v,
          [INITIAL_BACKOFF_MS * 2 ^ 0 + jitter 0, INITIAL_BACKOFF_MS * 2 ^ 1 + jitter 1]))
    ∧ (∀ e, call 0 = Except.error e → isRateLimitError e = false →
        extractTransactionsFromChunk call jitter = (Except.error e, []))
    ∧ (∀ e0 e1 e2, call 0 = Except.error e0 → isRateLimitError e0 = true →
        call 1 = Except.error e1 → isRateLimitError e1 = true →
        call 2 = Except.error e2 →
        extractTransactionsFromChunk call jitter = (Except.error e2,
          [INITIAL_BACKOFF_MS * 2 ^ 0 + jitter 0, INITIAL_BACKOFF_MS * 2 ^ 1 + jitter 1]))
    ∧ (∀ call' : Nat → Except String α, (∀ i, i < MAX_RETRIES → call i = call' i) →
        extractTransactionsFromChunk call jitter
          = extractTransactionsFromChunk call' jitter)
    ∧ (∀ a, 0 ≤ (jitter a).num → jitter a < mkRat 1000 1 →
        INITIAL_BACKOFF_MS * 2 ^ a ≤ INITIAL_BACKOFF_MS * 2 ^ a + jitter a
          ∧ INITIAL_BACKOFF_MS * 2 ^ a + jitter a
              < INITIAL_BACKOFF_MS * 2 ^ a + mkRat 1000 1) := by
  refine ⟨?_, ?_, ?_, ?_, ?_, ?_⟩
  · intro v h0
    simp [extractTransactionsFromChunk, MAX_RETRIES, retryAttempts, h0]
  · intro e0 e1 v h0 r0 h1 r1 h2
    simp [extractTransactionsFromChunk, MAX_RETRIES, retryAttempts, h0, r0, h1, r1, h2]
  · intro e h0 r0
    simp [extractTransactionsFromChunk, MAX_RETRIES, retryAttempts, h0, r0]
  · intro e0 e1 e2 h0 r0 h1 r1 h2
    simp [extractTransactionsFromChunk, MAX_RETRIES, retryAttempts, h0, r0, h1, r1, h2]
  · intro call' hagree
    have h0 := hagree 0 (by norm_num [MAX_RETRIES])
    have h1 := hagree 1 (by norm_num [MAX_RETRIES])
    have h2 := hagree 2 (by norm_num [MAX_RETRIES])
    simp only [extractTransactionsFromChunk, MAX_RETRIES, retryAttempts, h0, h1, h2]
  · intro a hnum hub
    have hj0 : 0 ≤ jitter a := Rat.num_nonneg.mp hnum
    exact ⟨le_add_of_nonneg_right hj0, add_lt_add_left hub _⟩

theorem retry_policy_witness :
    extractTransactionsFromChunk
        (fun i => if i < 2 then Except.error "rate limit exceeded" else Except.ok 42)
        (fun _ => mkRat 500 1)
      = (Except.ok 42, [INITIAL_BACKOFF_MS * 2 ^ 0 + mkRat 500 1,
          INITIAL_BACKOFF_MS * 2 ^ 1 + mkRat 500 1]) :=
  (retry_policy (fun i => if i < 2 then Except.error "rate limit exceeded" else Except.ok 42)
      (fun _ => mkRat 500 1)).2.1
    "rate limit exceeded" "rate limit exceeded" 42 rfl (by decide) rfl (by decide) rfl

/-! ## Response handling leniency -/

/-- C8: if the capability's response text contains a JSON object span
(between the first opening brace and the last closing brace) whose parse
succeeds but the parsed object has no `transactions` array, the extraction
client returns the empty record sequence rather than failing. -/
theorem missing_transactions_lenient (parse : Str → Except String Jsval) (text : Str)
    (i j : Nat) (jv : Jsval)
    (hi : jsIndexOf text '{' = some i) (hj : jsLastIndexOf text '}' = some j)
    (hij : ¬ j < i) (hp : parse ((text.drop i).take (j + 1 - i)) = Except.ok jv)
    (hno : ∀ xs, jv.getField "transactions" ≠ some (Jsval.arr xs)) :
    processResponseText parse text = Except.ok [] := by
  have hne : text ≠ [] := by
    intro h
    rw [h] at hi
    simp [jsIndexOf] at hi
  rw [processResponseText]
  rw [if_neg (by simpa [List.isEmpty_iff] using hne)]
  rw [hi, hj]
  dsimp only
  rw [if_neg hij, hp]
  dsimp only
  rw [extractFromParsed]
  cases hg : jv.getField "transactions" with
  | none => rfl
  | some v =>
    cases v with
    | arr xs => exact absurd hg (hno xs)
    | null => rfl
    | boolean b => rfl
    | num x => rfl
    | str s => rfl
    | obj fs => rfl

theorem missing_transactions_lenient_witness :
    processResponseText (fun _ => Except.ok (Jsval.obj [])) ("x{}y".toList)
      = Except.ok [] :=
  missing_transactions_lenient (fun _ => Except.ok (Jsval.obj [])) ("x{}y".toList)
    1 2 (Jsval.obj []) rfl rfl (by decide) rfl
    (fun xs h => Option.noConfusion h)

/-! ## The pipeline: fast path and empty-result failure -/

theorem processChunks_all_empty (extract : Str → Except String (List Transaction))
    (cs : List Str) (i : Nat) (h : ∀ c ∈ cs, extract c = Except.ok []) :
    processChunks extract cs i = (Except.ok [], cs.length) := by
  induction cs generalizing i with
  | nil => rfl
  | cons c cs ih =>
    rw [processChunks, h c (List.mem_cons_self c cs)]
    dsimp only
    rw [ih (i + 1) (fun x hx => h x (List.mem_cons_of_mem c hx))]
    simp

/-- C4: when no fast path applies and every chunk of the run is processed
successfully but the aggregated transaction sequence is empty, the run fails
with the "no transactions found" error and no document is produced. -/
theorem empty_result_error (extract : Str → Except String (List Transaction))
    (content : Str) (today : String) (k : Nat)
    (hfast : ofxHeaderMarker.isPrefixOf (jsTrim content) = false)
    (hall : processChunks extract (createChunks content MAX_CHUNK_SIZE) 0
      = (Except.ok [], k)) :
    handleFileSelect extract content today = (Except.error noTransactionsMsg, k) := by
  rw [handleFileSelect, if_neg (by simp [hfast]), hall]
  rfl

theorem empty_result_error_witness :
    handleFileSelect (fun _ => Except.ok []) ("hello".toList) "20240101"
      = (Except.error noTransactionsMsg, 1) := by
  refine empty_result_error (fun _ => Except.ok []) ("hello".toList) "20240101" 1
    (by decide) ?_
  exact processChunks_all_empty _ _ 0 (fun c _ => rfl)

/-- C5: for every input whose trimmed text begins with the literal
`OFXHEADER:` marker, the pipeline returns the input text verbatim and makes
zero calls to the extraction capability (the result does not depend on
`extract` at all). -/
theorem ofx_fast_path (extract : Str → Except String (List Transaction))
    (content : Str) (today : String)
    (h : ofxHeaderMarker.isPrefixOf (jsTrim content) = true) :
    handleFileSelect extract content today = (Except.ok (String.mk content), 0) := by
  rw [handleFileSelect, if_pos h]

theorem ofx_fast_path_witness :
    handleFileSelect (fun _ => Except.error "no capability")
        ("OFXHEADER:100".toList) "20240101"
      = (Except.ok (String.mk ("OFXHEADER:100".toList)), 0) :=
  ofx_fast_path (fun _ => Except.error "no capability") ("OFXHEADER:100".toList)
    "20240101" (by decide)

/-! ## Serializer determinism -/

/-- C9 (amended): serialization is deterministic as a function of the
transaction list and of the serialization-time current date: two invocations
with the same list and the same current date yield byte-identical documents.
(The current date, read from the ambient clock by the source, is the only
ambient input.) -/
theorem serialize_deterministic (ts1 ts2 : List Transaction) (d1 d2 : String)
    (ht : ts1 = ts2) (hd : d1 = d2) :
    createOfxContent ts1 d1 = createOfxContent ts2 d2 := by
  rw [ht, hd]

theorem serialize_deterministic_witness :
    createOfxContent [] "20240101" = createOfxContent [] "20240101" :=
  serialize_deterministic [] [] "20240101" "20240101" rfl rfl

set_option maxRecDepth 8000 in
/-- C9 counterexample: the source serializer reads the ambient clock
(`new Date()`), so two invocations on the same transaction list at different
current dates produce different documents (the `DTSERVER` and `DTASOF`
fields differ); serialization is not a function of the transaction list
alone. -/
theorem serialize_clock_dependent :
    createOfxContent [] "20240101" ≠ createOfxContent [] "20240102" := by
  decide

theorem normalizeRecord_spec_witness :
    normalizeRecord ⟨none, some "Coffee", some (Jsval.num 1)⟩ = none :=
  (normalizeRecord_spec ⟨none, some "Coffee", some (Jsval.num 1)⟩).1.mpr (Or.inl rfl)

theorem serializer_sorts_witness :
    startDate [] "20240101" = "20240101" ∧ endDate [] "20240101" = "20240101" :=
  (serializer_sorts_by_date [] "20240101").2.2.2.2.2.1 rfl
